import Mathlib

set_option autoImplicit false

namespace PrebidServer

/-!
Shallow embedding of the stored-request subsystem, the event subsystem, the
bid validator / response assembler of the exchange, and the Brightroll
adapter of the prebid-server repository.

Go values of type `map[string]json.RawMessage` are modelled as association
lists of strings; `mget` is the map read `m[k]` (first binding wins, and all
maps built below bind each key at most once, matching Go map semantics).
-/

/-- Raw JSON bytes (`json.RawMessage`), kept opaque as a string. -/
abbrev RawJSON := String

/-- A Go `map[string]json.RawMessage`, as an association list. -/
abbrev SMap := List (String × RawJSON)

/-- Map read `m[k]`: the first binding of `k`, if any. -/
def mget : SMap → String → Option RawJSON
  | [], _ => none
  | (k2, v) :: rest, k => if k2 = k then some v else mget rest k

/-- Modelled from the spec: the `Cache.Get` contract of §4.7 (the LRU leaf
implementation is not under src/). `Get(ids)` returns entries for exactly
those requested ids that are present in the cache, never synthesizing keys
outside the id list. -/
def cacheGet (m : SMap) (ids : List String) : SMap :=
  ids.filterMap (fun id => (mget m id).map (fun v => (id, v)))

/-- Modelled from the spec: the `Cache.Update` contract of §4.7, an
idempotent upsert `m[k] = v` for every entry of `data`. Entries of `data`
shadow older bindings. -/
def cacheUpdate (m : SMap) (data : SMap) : SMap :=
  data ++ m

/-- Modelled from the spec: the `Cache.Invalidate` contract of §4.7,
`delete(m, id)` for every id in the list. -/
def cacheInvalidate (m : SMap) (ids : List String) : SMap :=
  m.filter (fun p => decide (p.1 ∉ ids))

@[simp]
theorem mget_nil (k : String) : mget [] k = none := rfl

theorem mget_cons (k2 : String) (v : RawJSON) (rest : SMap) (k : String) :
    mget ((k2, v) :: rest) k = if k2 = k then some v else mget rest k := rfl

theorem mget_append_of_some (l1 l2 : SMap) (k : String) (v : RawJSON)
    (h : mget l1 k = some v) : mget (l1 ++ l2) k = some v := by
  induction l1 with
  | nil => simp [mget] at h
  | cons p rest ih =>
    obtain ⟨k2, w⟩ := p
    by_cases hk : k2 = k
    · simp [mget, hk] at h ⊢
      exact h
    · simp [mget, hk] at h ⊢
      exact ih h

theorem mget_append_of_none (l1 l2 : SMap) (k : String)
    (h : mget l1 k = none) : mget (l1 ++ l2) k = mget l2 k := by
  induction l1 with
  | nil => simp
  | cons p rest ih =>
    obtain ⟨k2, w⟩ := p
    by_cases hk : k2 = k
    · simp [mget, hk] at h
    · simp [mget, hk] at h ⊢
      exact ih h

theorem mget_cacheGet (m : SMap) (ids : List String) (k : String) :
    mget (cacheGet m ids) k = if k ∈ ids then mget m k else none := by
  induction ids with
  | nil => simp [cacheGet]
  | cons id rest ih =>
    by_cases hid : id = k
    · subst hid
      cases hm : mget m id with
      | none =>
        rw [show cacheGet m (id :: rest) = cacheGet m rest by
          simp [cacheGet, List.filterMap_cons, hm]]
        rw [ih]
        by_cases hr : id ∈ rest <;> simp [hr, hm]
      | some v =>
        rw [show cacheGet m (id :: rest) = (id, v) :: cacheGet m rest by
          simp [cacheGet, List.filterMap_cons, hm]]
        simp [mget_cons, hm]
    · cases hm : mget m id with
      | none =>
        rw [show cacheGet m (id :: rest) = cacheGet m rest by
          simp [cacheGet, List.filterMap_cons, hm]]
        rw [ih]
        by_cases hr : k ∈ rest <;> simp [hr, List.mem_cons, Ne.symm hid]
      | some v =>
        rw [show cacheGet m (id :: rest) = (id, v) :: cacheGet m rest by
          simp [cacheGet, List.filterMap_cons, hm]]
        rw [mget_cons, if_neg hid, ih]
        by_cases hr : k ∈ rest <;> simp [hr, List.mem_cons, Ne.symm hid]

theorem mget_cacheInvalidate_mem (m : SMap) (ids : List String) (k : String)
    (hk : k ∈ ids) : mget (cacheInvalidate m ids) k = none := by
  induction m with
  | nil => simp [cacheInvalidate]
  | cons p rest ih =>
    obtain ⟨k2, v⟩ := p
    simp only [cacheInvalidate, List.filter_cons] at ih ⊢
    by_cases hin : k2 ∈ ids
    · simpa [hin] using ih
    · have hne : k2 ≠ k := fun h => hin (h ▸ hk)
      simpa [hin, mget_cons, hne] using ih

theorem mget_cacheUpdate_of_some (m data : SMap) (k : String) (v : RawJSON)
    (h : mget data k = some v) : mget (cacheUpdate m data) k = some v :=
  mget_append_of_some data m k v h

theorem mget_cacheUpdate_of_none (m data : SMap) (k : String)
    (h : mget data k = none) : mget (cacheUpdate m data) k = mget m k :=
  mget_append_of_none data m k h

/-! ## File fetcher (src/stored_requests/backends/file_fetcher/fetcher.go) -/

/-- The error `fmt.Errorf("No config found for id: %s", id)`. -/
inductive FetchErr where
  | noConfigFound (id : String)
deriving DecidableEq

/-- The error-collecting loop of `eagerFetcher.FetchRequests`: one error is
appended, in id order, for each requested id absent from the loaded map. -/
def eagerFetchErrors (storedReqs : SMap) : List String → List FetchErr
  | [] => []
  | id :: rest =>
    if (mget storedReqs id).isSome then eagerFetchErrors storedReqs rest
    else FetchErr.noConfigFound id :: eagerFetchErrors storedReqs rest

/-- `eagerFetcher.FetchRequests`: returns the whole in-memory map
`fetcher.storedReqs` (not a projection onto the requested ids) together with
the collected errors. -/
def eagerFetchRequests (storedReqs : SMap) (ids : List String) :
    SMap × List FetchErr :=
  (storedReqs, eagerFetchErrors storedReqs ids)

theorem eagerFetchErrors_eq (storedReqs : SMap) (ids : List String) :
    eagerFetchErrors storedReqs ids =
      (ids.filter (fun id => (mget storedReqs id).isNone)).map FetchErr.noConfigFound := by
  induction ids with
  | nil => rfl
  | cons id rest ih =>
    cases hm : mget storedReqs id <;>
      simp [eagerFetchErrors, List.filter_cons, hm, ih]

/-! ## Fetcher composition (src/stored_requests/fetcher.go) -/

/-- `fetcherWithCache.FetchRequests`: probes the cache, computes the ids the
cache missed, queries the underlying fetcher for those, then calls
`f.cache.Update(ctx, data)` — note: with `data`, the map of cache *hits*,
before `missingData` is merged into it — and finally merges the fetched
entries into the returned map. The result is `((returned map, errors), the
cache state after the call)`. -/
def fetcherWithCacheFetchRequests (cache : SMap)
    (fetcher : List String → SMap × List FetchErr) (ids : List String) :
    (SMap × List FetchErr) × SMap :=
  let data := cacheGet cache ids
  let missingIds := ids.filter (fun id => (mget data id).isNone)
  let fetched := fetcher missingIds
  let cache2 := cacheUpdate cache data
  ((fetched.1 ++ data, fetched.2), cache2)

/-- The cache state after `fetcherWithCache.FetchRequests` is extensionally
unchanged: the `Update` call re-inserts only what `Get` just returned, so no
newly fetched value ever enters the cache. -/
theorem fetcherWithCache_cache_unchanged (cache : SMap)
    (fetcher : List String → SMap × List FetchErr) (ids : List String) (k : String) :
    mget (fetcherWithCacheFetchRequests cache fetcher ids).2 k = mget cache k := by
  show mget (cacheUpdate cache (cacheGet cache ids)) k = mget cache k
  cases hd : mget (cacheGet cache ids) k with
  | none => exact mget_cacheUpdate_of_none cache _ k hd
  | some v =>
    rw [mget_cacheUpdate_of_some cache _ k v hd]
    rw [mget_cacheGet] at hd
    by_cases hk : k ∈ ids
    · rw [if_pos hk] at hd
      exact hd.symm
    · rw [if_neg hk] at hd
      exact absurd hd (by simp)

/-! ## Event listener (src/stored_requests/events/events.go) -/

/-- The state owned by the goroutine started by `Listen`: the target cache
plus the two event counters of `eventListener`. -/
structure ListenerState where
  cache : SMap
  updateCount : Nat
  invalidationCount : Nat
deriving DecidableEq

/-- One value arriving at the `select` statement of the `Listen` goroutine:
an update map, an invalidation id list, or the signal sent by `Stop()`. -/
inductive ListenerEvent where
  | update (data : SMap)
  | invalidate (ids : List String)
  | stopSignal
deriving DecidableEq

/-- One iteration of the `for { select { ... } }` loop in `Listen`. The
`update` and `invalidate` cases forward the event to the cache and bump the
counter. In the stop case the source executes `break`, which in Go
terminates only the innermost `select`, not the `for` loop, so the
iteration ends with the state unchanged and the loop continues. -/
def listenStep (s : ListenerState) : ListenerEvent → ListenerState
  | .update data =>
    { s with cache := cacheUpdate s.cache data, updateCount := s.updateCount + 1 }
  | .invalidate ids =>
    { s with cache := cacheInvalidate s.cache ids,
             invalidationCount := s.invalidationCount + 1 }
  | .stopSignal => s

/-- The `Listen` goroutine run on a finite prefix of its event arrivals: the
loop never exits, so every arrival — including those delivered after a stop
signal — is processed by `listenStep`. -/
def listenRun (s : ListenerState) (evs : List ListenerEvent) : ListenerState :=
  evs.foldl listenStep s

/-! ## Postgres LISTEN/NOTIFY producer (src/stored_requests/events/postgres/postgres.go) -/

/-- The `data` object of a notification payload. -/
structure NotificationData where
  id : String
  requestData : RawJSON
deriving DecidableEq

/-- A notification payload `{table, action, data}` delivered on the
configured Postgres channel. -/
structure PgNotification where
  table : String
  action : String
  data : NotificationData
deriving DecidableEq

/-- The `case n := <-l.Notify` body of `handleNotifications`: it logs the
notification and does nothing else — the dispatch on `action` exists only as
a TODO comment in the source — so no update and no invalidation is ever
emitted on the producer channels. The result is the pair (emitted update
maps, emitted invalidation lists). -/
def handleNotification (_n : PgNotification) : List SMap × List (List String) :=
  ([], [])

/-! ## HTTP admin producer (src/stored_requests/backends/file_fetcher/fetcher.go, eventsAPI) -/

/-- What one call of `eventsAPI.HandleEvent` does: the HTTP status written
to the ResponseWriter together with the update maps and invalidation lists
sent on the producer channels. -/
structure HandleEventResult where
  status : Nat
  emittedUpdates : List SMap
  emittedInvalidations : List (List String)
deriving DecidableEq

/-- `eventsAPI.HandleEvent`, parameterized by the JSON well-formedness check
performed by `json.Unmarshal` into a `json.RawMessage` (the json package is
external; unmarshalling into a RawMessage succeeds exactly when the body is
valid JSON and then copies the body bytes). A handler that returns without
calling WriteHeader makes net/http respond 200, so the POST, DELETE and
fall-through paths that write nothing are modelled with status 200. The
body-read error branch cannot occur here because the body is given. -/
def handleEvent (isValidJSON : String → Bool) (method : String) (id : String)
    (body : String) : HandleEventResult :=
  if method = "POST" then
    if isValidJSON body then
      { status := 200, emittedUpdates := [[(id, body)]], emittedInvalidations := [] }
    else
      { status := 400, emittedUpdates := [], emittedInvalidations := [] }
  else if method = "DELETE" then
    { status := 200, emittedUpdates := [], emittedInvalidations := [[id]] }
  else
    { status := 200, emittedUpdates := [], emittedInvalidations := [] }

/-! ## Bid validator (src/exchange/exchange.go) -/

/-- The fields of `openrtb.Bid` that the validator inspects. Prices
(`float64` in the source) are modelled as rationals: the validator only
compares them with zero. -/
structure OpenRTBBid where
  id : String
  impid : String
  price : Rat
  crid : String
deriving DecidableEq

/-- `pbsOrtbBid`: the underlying bid object is a pointer and may be nil. -/
structure POBid where
  bid : Option OpenRTBBid
deriving DecidableEq

/-- The parts of `pbsOrtbSeatBid` that validation touches: the bid list and
the declared seat currency. -/
structure PBSSeatBid where
  bids : List POBid
  currency : String
deriving DecidableEq

/-- The errors produced by `validateBid`, `validateCurrency` and the
currency library, one constructor per `fmt.Errorf` / error site. -/
inductive BidValidationError where
  | emptyBidObject
  | missingId
  | missingImpId (id : String)
  | nonPositivePrice (id : String)
  | missingCrId (id : String)
  | currencyParseError (cur : String)
  | currencyNotAllowed (cur : String) (allowed : List String)
deriving DecidableEq

/-- Go `strings.ToUpper` as used on currency codes (ASCII letters), defined
over the character list so that it evaluates on concrete strings. -/
def strUpper (s : String) : String :=
  String.mk (s.toList.map Char.toUpper)

/-- Modelled from the spec: `currency.ParseISO` of golang.org/x/text (an
external library). It accepts a 3-letter code case-insensitively —
`tag.FixCase("XXX", key)` canonicalizes the spelling to uppercase and
rejects anything that is not exactly three ASCII letters — and then looks
the canonical code up in the ISO 4217 table, here the parameter
`isoCodes` (a list of uppercase codes). On success it returns the
canonical (uppercase) unit, which is what `Unit.String()` prints. -/
def parseISO (isoCodes : List String) (s : String) : Option String :=
  if s.length = 3 && s.toList.all Char.isAlpha && isoCodes.contains (strUpper s) then
    some (strUpper s)
  else none

theorem parseISO_some (isoCodes : List String) (s u : String)
    (h : parseISO isoCodes s = some u) : u = strUpper s := by
  unfold parseISO at h
  split at h
  · exact (Option.some_inj.mp h).symm
  · exact absurd h (by simp)

/-- `validateCurrency`: empty seat currency defaults to `USD`; the string
must parse as an ISO 4217 code; the request `Cur` allow-list (defaulting to
`["USD"]` when empty, per `len(requestAllowedCurrencies) == 0`) must contain
the parsed unit after uppercasing each allowed entry. Returns `none` when
the check passes, `some` error otherwise. -/
def validateCurrency (isoCodes : List String) (requestAllowedCurrencies : List String)
    (bidCurrency : String) : Option BidValidationError :=
  let bidCur := if bidCurrency = "" then "USD" else bidCurrency
  match parseISO isoCodes bidCur with
  | none => some (.currencyParseError bidCur)
  | some currencyUnit =>
    let allowed :=
      if requestAllowedCurrencies.length = 0 then ["USD"] else requestAllowedCurrencies
    if allowed.any (fun c => strUpper c == currencyUnit) then none
    else some (.currencyNotAllowed currencyUnit allowed)

/-- `validateBid`: nil bid object, then empty `id`, empty `impid`,
non-positive `price`, empty `crid`, in source order. Returns `none` exactly
when the source returns `(true, nil)` (the bid is kept). -/
def validateBid (b : POBid) : Option BidValidationError :=
  match b.bid with
  | none => some .emptyBidObject
  | some bid =>
    if bid.id = "" then some .missingId
    else if bid.impid = "" then some (.missingImpId bid.id)
    else if bid.price ≤ 0 then some (.nonPositivePrice bid.id)
    else if bid.crid = "" then some (.missingCrId bid.id)
    else none

/-- The loop of `validateBids` that partitions the seat's bids into
`validBids` and the error list, appending in source order. -/
def collectValidBids : List POBid → List POBid × List BidValidationError
  | [] => ([], [])
  | b :: rest =>
    let r := collectValidBids rest
    match validateBid b with
    | none => (b :: r.1, r.2)
    | some e => (r.1, e :: r.2)

/-- `bidResponseWrapper.validateBids`: exits early when the seat has no
bids; otherwise a failed currency check discards all bids with that single
error; otherwise the per-bid loop excises invalid bids (the source replaces
the bid list with `validBids` whenever any bid was excised, and leaving it
in place when none was is the same list). -/
def validateBids (isoCodes : List String) (requestCur : List String)
    (seat : PBSSeatBid) : PBSSeatBid × List BidValidationError :=
  if seat.bids.length = 0 then (seat, [])
  else
    match validateCurrency isoCodes requestCur seat.currency with
    | some cerr => ({ seat with bids := [] }, [cerr])
    | none =>
      let r := collectValidBids seat.bids
      ({ seat with bids := r.1 }, r.2)

/-- The per-bid validity condition of §4.3/§8: non-nil bid object with
non-empty `id`, `impid`, `crid` and strictly positive price. -/
def BidIsValid (b : POBid) : Prop :=
  ∃ bid, b.bid = some bid ∧ bid.id ≠ "" ∧ bid.impid ≠ "" ∧ bid.crid ≠ "" ∧ 0 < bid.price

theorem validateBid_none_iff (b : POBid) : validateBid b = none ↔ BidIsValid b := by
  unfold validateBid BidIsValid
  cases hb : b.bid with
  | none => simp
  | some bid =>
    constructor
    · intro h
      refine ⟨bid, rfl, ?_⟩
      by_cases h1 : bid.id = "" <;> simp [h1] at h ⊢
      by_cases h2 : bid.impid = "" <;> simp [h2] at h ⊢
      by_cases h3 : bid.price ≤ 0 <;> simp [h3] at h ⊢
      by_cases h4 : bid.crid = "" <;> simp [h4] at h ⊢
      exact lt_of_not_le h3
    · rintro ⟨bid2, hbid2, h1, h2, h4, h3⟩
      cases hbid2
      simp [h1, h2, h4, not_le.mpr h3]

theorem collectValidBids_eq (l : List POBid) :
    collectValidBids l =
      (l.filter (fun b => (validateBid b).isNone), l.filterMap validateBid) := by
  induction l with
  | nil => rfl
  | cons b rest ih =>
    simp only [collectValidBids, ih, List.filter_cons, List.filterMap_cons]
    cases hv : validateBid b <;> simp [hv]

theorem collectValidBids_length (l : List POBid) :
    (collectValidBids l).2.length + (collectValidBids l).1.length = l.length := by
  induction l with
  | nil => rfl
  | cons b rest ih =>
    simp only [collectValidBids]
    cases hv : validateBid b <;> simp [hv] <;> omega

/-! ## Response assembler (src/exchange/exchange.go, buildBidResponse) -/

/-- An `openrtb.SeatBid` of the assembled response: the seat name and its
bid list (the per-bid extension marshalling of `makeBid` never fails for
the bid shapes modelled here, so every bid of the seat is carried over). -/
structure Seat where
  seat : String
  bids : List POBid
deriving DecidableEq

/-- The assembled `openrtb.BidResponse`: request id, the optional no-bid
reason code, and the seat-bid list. -/
structure BidResponse where
  id : String
  nbr : Option Nat
  seatBid : List Seat
deriving DecidableEq

/-- `openrtb.NoBidReasonCodeInvalidRequest`. -/
def noBidReasonInvalidRequest : Nat := 2

/-- `makeSeatBid` restricted to the fields the response carries. -/
def makeSeatBid (a : String) (sb : PBSSeatBid) : Seat :=
  { seat := a, bids := sb.bids }

/-- The seat-building loop of `buildBidResponse`: a seat is appended for an
adapter exactly when its entry is non-nil and has at least one bid. -/
def buildSeatBids (adapterBids : String → Option PBSSeatBid) :
    List String → List Seat
  | [] => []
  | a :: rest =>
    match adapterBids a with
    | some sb =>
      if 0 < sb.bids.length then makeSeatBid a sb :: buildSeatBids adapterBids rest
      else buildSeatBids adapterBids rest
    | none => buildSeatBids adapterBids rest

/-- `buildBidResponse`: copies the request id, sets
`NBR = NoBidReasonCodeInvalidRequest` when `len(liveAdapters) == 0`, and
assembles the non-empty seats in live-adapter order. -/
def buildBidResponse (requestId : String) (liveAdapters : List String)
    (adapterBids : String → Option PBSSeatBid) : BidResponse :=
  { id := requestId
    nbr :=
      if liveAdapters.length = 0 then some noBidReasonInvalidRequest else none
    seatBid := buildSeatBids adapterBids liveAdapters }

/-- Whether an adapter's map entry contributes a seat. -/
def seatHasBids : Option PBSSeatBid → Bool
  | some sb => decide (0 < sb.bids.length)
  | none => false

theorem buildSeatBids_eq (adapterBids : String → Option PBSSeatBid)
    (live : List String) :
    buildSeatBids adapterBids live =
      (live.filter (fun a => seatHasBids (adapterBids a))).map
        (fun a => makeSeatBid a ((adapterBids a).getD { bids := [], currency := "" })) := by
  induction live with
  | nil => rfl
  | cons a rest ih =>
    cases hb : adapterBids a with
    | none => simp [buildSeatBids, hb, List.filter_cons, seatHasBids, ih]
    | some sb =>
      by_cases hl : 0 < sb.bids.length <;>
        simp [buildSeatBids, hb, List.filter_cons, seatHasBids, hl, ih]

/-! ## Cache composition (src/stored_requests/fetcher.go, composedCache) -/

/-- `composedCache.Get`: each member cache is probed with the ids still
missing; the inner loop walks `remainingIds` and moves every id present in
`cachedData` into the accumulated result (the `len(cachedData) > 0` guard
only skips an empty inner loop); the loop returns early once no id remains.
Member caches are modelled by their key→value maps, with the contract-level
`cacheGet` as their `Get`. -/
def composedCacheGet : List SMap → List String → SMap
  | [], _ => []
  | c :: cs, remainingIds =>
    let cachedData := cacheGet c remainingIds
    let hits := cacheGet cachedData remainingIds
    let remaining2 := remainingIds.filter (fun id => (mget cachedData id).isNone)
    if remaining2.isEmpty then hits
    else hits ++ composedCacheGet cs remaining2

/-- `composedCache.Update`: forwards the data to every member cache. -/
def composedCacheUpdate (layers : List SMap) (data : SMap) : List SMap :=
  layers.map (fun c => cacheUpdate c data)

/-- `composedCache.Invalidate`: forwards the ids to every member cache. -/
def composedCacheInvalidate (layers : List SMap) (ids : List String) : List SMap :=
  layers.map (fun c => cacheInvalidate c ids)

/-- The value for an id from the first layer, in order, that holds it. -/
def firstHit : List SMap → String → Option RawJSON
  | [], _ => none
  | c :: cs, id =>
    match mget c id with
    | some v => some v
    | none => firstHit cs id

theorem mget_composedCacheGet (layers : List SMap) (ids : List String) (k : String) :
    mget (composedCacheGet layers ids) k =
      if k ∈ ids then firstHit layers k else none := by
  induction layers generalizing ids with
  | nil =>
    simp [composedCacheGet, firstHit]
  | cons c cs ih =>
    have hhits : ∀ rem : List String,
        mget (cacheGet (cacheGet c rem) rem) k = if k ∈ rem then mget c k else none := by
      intro rem
      rw [mget_cacheGet, mget_cacheGet]
      by_cases hr : k ∈ rem <;> simp [hr]
    have hmem2 : ∀ rem : List String,
        (k ∈ rem.filter (fun id => (mget (cacheGet c rem) id).isNone)) ↔
          (k ∈ rem ∧ mget c k = none) := by
      intro rem
      rw [List.mem_filter]
      constructor
      · rintro ⟨hk, hnone⟩
        rw [mget_cacheGet, if_pos hk] at hnone
        exact ⟨hk, by simpa using hnone⟩
      · rintro ⟨hk, hnone⟩
        refine ⟨hk, ?_⟩
        rw [mget_cacheGet, if_pos hk]
        simp [hnone]
    simp only [composedCacheGet]
    set rem2 := ids.filter (fun id => (mget (cacheGet c ids) id).isNone) with hrem2
    by_cases hk : k ∈ ids
    · rw [if_pos hk]
      cases hc : mget c k with
      | some v =>
        have hh : mget (cacheGet (cacheGet c ids) ids) k = some v := by
          rw [hhits ids, if_pos hk, hc]
        have hfh : firstHit (c :: cs) k = some v := by simp [firstHit, hc]
        split
        · rw [hh, hfh]
        · rw [mget_append_of_some _ _ _ _ hh, hfh]
      | none =>
        have hmem : k ∈ rem2 := (hmem2 ids).mpr ⟨hk, hc⟩
        have hh : mget (cacheGet (cacheGet c ids) ids) k = none := by
          rw [hhits ids, if_pos hk, hc]
        split
        · next hemp =>
          rw [List.isEmpty_iff] at hemp
          rw [hemp] at hmem
          exact absurd hmem (by simp)
        · rw [mget_append_of_none _ _ _ hh, ih rem2, if_pos hmem]
          simp [firstHit, hc]
    · rw [if_neg hk]
      have hmem : k ∉ rem2 := fun h => hk ((hmem2 ids).mp h).1
      have hh : mget (cacheGet (cacheGet c ids) ids) k = none := by
        rw [hhits ids, if_neg hk]
      split
      · exact hh
      · rw [mget_append_of_none _ _ _ hh, ih rem2, if_neg hmem]

/-! ## Brightroll adapter (src/unnamed/part_000, BrightrollAdapter.MakeBids) -/

/-- An `openrtb.SeatBid` of an adapter's raw bid response. -/
structure ORSeatBid where
  bid : List OpenRTBBid
deriving DecidableEq

/-- An `openrtb.BidResponse` as unmarshalled from the adapter's body. -/
structure ORBidResponse where
  seatBid : List ORSeatBid
deriving DecidableEq

/-- `openrtb_ext.BidType` restricted to what the Brightroll adapter emits. -/
inductive BidType where
  | banner
  | video
deriving DecidableEq

/-- The fields of `openrtb.Imp` that `getMediaTypeForImp` inspects. -/
structure Imp where
  id : String
  hasVideo : Bool
deriving DecidableEq

/-- `getMediaTypeForImp` (brightroll): banner by default; the first imp
matching the bid's impid decides, video winning when its Video is non-nil. -/
def getMediaTypeForImp : String → List Imp → BidType
  | _, [] => .banner
  | impId, imp :: rest =>
    if imp.id = impId then (if imp.hasVideo then .video else .banner)
    else getMediaTypeForImp impId rest

/-- An `adapters.TypedBid`. -/
structure TypedBid where
  bid : OpenRTBBid
  bidType : BidType
deriving DecidableEq

/-- An `adapters.BidderResponse`. -/
structure BidderResponse where
  bids : List TypedBid
deriving DecidableEq

/-- The error classifications `MakeBids` can return. -/
inductive AdapterErr where
  | badInput
  | badServerResponse
deriving DecidableEq

/-- The outcome of a `MakeBids` call in a total embedding: either the
(response, errors) pair the Go function returns, or the runtime fault of the
out-of-range read `bidResp.SeatBid[0]`. -/
inductive MakeBidsOutcome where
  | ok (resp : Option BidderResponse) (errs : List AdapterErr)
  | indexOutOfRange
deriving DecidableEq

/-- `BrightrollAdapter.MakeBids`: 204 means no bid; 400 maps to BadInput;
other non-200 maps to BadServerResponse; an unparseable body (modelled as
`parsedBody = none`) maps to BadServerResponse; otherwise the code reads
`bidResp.SeatBid[0]` without checking that the seat-bid list is non-empty,
which is an out-of-range access when it is empty. -/
def brightrollMakeBids (statusCode : Nat) (parsedBody : Option ORBidResponse)
    (imps : List Imp) : MakeBidsOutcome :=
  if statusCode = 204 then .ok none []
  else if statusCode = 400 then .ok none [.badInput]
  else if statusCode ≠ 200 then .ok none [.badServerResponse]
  else
    match parsedBody with
    | none => .ok none [.badServerResponse]
    | some bidResp =>
      match bidResp.seatBid with
      | [] => .indexOutOfRange
      | sb :: _ =>
        .ok
          (some
            { bids :=
                sb.bid.map (fun b =>
                  { bid := b, bidType := getMediaTypeForImp b.impid imps }) })
          []

/-! ## Claim theorems -/

/-- A backing fetcher holding the single stored request `"a" ↦ "data-a"` and
reporting no errors for requests of `"a"`. -/
def fetcherA (ids : List String) : SMap × List FetchErr :=
  (ids.filterMap (fun id => if id = "a" then some ("a", "data-a") else none), [])

/-- C1: `fetcherWithCache.FetchRequests` is claimed to write the newly
fetched values into the cache so that a subsequent cache `Get` returns the
same bytes. The source instead calls `cache.Update` with the map of cache
hits, so at the failing input (empty cache, backing fetcher holding `"a"`,
request `["a"]`) the fetch succeeds and returns the bytes, yet the cache
afterwards still misses `"a"`. -/
theorem fetcherWithCache_fetched_value_not_cached :
    (fetcherWithCacheFetchRequests [] fetcherA ["a"]).1 = ([("a", "data-a")], []) ∧
    cacheGet (fetcherWithCacheFetchRequests [] fetcherA ["a"]).2 ["a"] = [] :=
  ⟨rfl, rfl⟩

/-- C2 counterexample: one live adapter whose seat holds zero bids — so no
adapter produced any bids — yet the assembled response leaves `NBR` unset
(and carries no seats), refuting the claim that `NBR = InvalidRequest`
whenever no adapter produced any bids. -/
theorem buildBidResponse_nbr_unset_without_bids :
    (buildBidResponse "req-1" ["appnexus"]
        (fun _ => some { bids := [], currency := "USD" })).nbr = none ∧
    (buildBidResponse "req-1" ["appnexus"]
        (fun _ => some { bids := [], currency := "USD" })).seatBid = [] :=
  ⟨rfl, rfl⟩

/-- C2 (amended): the assembled bid response copies the request id, omits
seats with zero bids (the emitted seats are exactly the live adapters whose
entries have at least one bid, in live-adapter order), and carries
`NBR = InvalidRequest` exactly when the live-adapter list is empty; with at
least one live adapter `NBR` is left unset even when no adapter produced
any bids. -/
theorem buildBidResponse_spec (requestId : String) (liveAdapters : List String)
    (adapterBids : String → Option PBSSeatBid) :
    (buildBidResponse requestId liveAdapters adapterBids).id = requestId ∧
    ((buildBidResponse requestId liveAdapters adapterBids).nbr
        = some noBidReasonInvalidRequest ↔ liveAdapters = []) ∧
    (buildBidResponse requestId liveAdapters adapterBids).seatBid =
      (liveAdapters.filter (fun a => seatHasBids (adapterBids a))).map
        (fun a => makeSeatBid a ((adapterBids a).getD { bids := [], currency := "" })) := by
  refine ⟨rfl, ?_, buildSeatBids_eq adapterBids liveAdapters⟩
  show (if liveAdapters.length = 0 then some noBidReasonInvalidRequest else none)
      = some noBidReasonInvalidRequest ↔ liveAdapters = []
  by_cases h : liveAdapters.length = 0
  · simp [h, List.length_eq_zero.mp h]
  · have hne : liveAdapters ≠ [] := fun hh => h (by simp [hh])
    simp [h, hne]

/-- C3: the claim says an `UPDATE` notification makes the producer emit the
update and a `DELETE` the invalidation. The `handleNotifications` loop body
in the source only logs the notification (the dispatch on `action` is a TODO
comment), so nothing is ever emitted for either action. -/
theorem handleNotification_emits_nothing :
    handleNotification
        { table := "stored_requests", action := "UPDATE",
          data := { id := "1", requestData := "request-data-1" } } = ([], []) ∧
    handleNotification
        { table := "stored_requests", action := "DELETE",
          data := { id := "1", requestData := "request-data-1" } } = ([], []) :=
  ⟨rfl, rfl⟩

/-- C4: the claim says that once the listener receives the stop signal it
never again forwards an event and its counters no longer change. In the
source the stop case executes `break`, which terminates only the `select`,
so an update and an invalidation delivered after the stop signal are still
forwarded to the cache and still bump both counters. -/
theorem listen_forwards_after_stop :
    listenRun { cache := [], updateCount := 0, invalidationCount := 0 }
        [.stopSignal, .update [("a", "v1")], .invalidate ["a"]] =
      { cache := [], updateCount := 1, invalidationCount := 1 } :=
  rfl

/-- C5: a POST with a JSON body responds 200 and emits the update, a POST
with a malformed body responds 400 and emits nothing, a DELETE responds 200
and emits the invalidation — but a GET falls through both branches of
`HandleEvent`, which writes nothing, so the response is the implicit 200,
not the 405 the claim (and the repository's own api_test.go) requires. -/
theorem handleEvent_get_not_405 :
    handleEvent (fun _ => true) "POST" "42" "body-json" =
      { status := 200, emittedUpdates := [[("42", "body-json")]],
        emittedInvalidations := [] } ∧
    handleEvent (fun _ => false) "POST" "42" "not-json" =
      { status := 400, emittedUpdates := [], emittedInvalidations := [] } ∧
    handleEvent (fun _ => false) "DELETE" "42" "" =
      { status := 200, emittedUpdates := [], emittedInvalidations := [["42"]] } ∧
    handleEvent (fun _ => false) "GET" "42" "" =
      { status := 200, emittedUpdates := [], emittedInvalidations := [] } :=
  ⟨rfl, rfl, rfl, rfl⟩

/-- C6: the currency check treats an empty declared seat currency as `USD`;
it passes exactly when the (defaulted) currency parses as an ISO 4217 code
and the request's `Cur` allow-list — defaulting to `["USD"]` when empty —
contains it case-insensitively; and when the check fails on a seat with
bids, all of the seat's bids are discarded, exactly one currency error is
returned, and the per-bid validations are skipped. -/
theorem validateCurrency_spec (isoCodes requestCur : List String) (seat : PBSSeatBid)
    (hne : seat.bids ≠ []) :
    validateCurrency isoCodes requestCur "" = validateCurrency isoCodes requestCur "USD" ∧
    (∀ cur : String,
      validateCurrency isoCodes requestCur cur = none ↔
        (parseISO isoCodes (if cur = "" then "USD" else cur)).isSome ∧
        ∃ a ∈ (if requestCur = [] then ["USD"] else requestCur),
          strUpper a = strUpper (if cur = "" then "USD" else cur)) ∧
    (∀ cerr, validateCurrency isoCodes requestCur seat.currency = some cerr →
      validateBids isoCodes requestCur seat = ({ seat with bids := [] }, [cerr])) := by
  refine ⟨rfl, ?_, ?_⟩
  · intro cur
    have hall : (if requestCur.length = 0 then (["USD"] : List String) else requestCur)
        = if requestCur = [] then ["USD"] else requestCur := by
      by_cases h : requestCur = [] <;> simp [h]
    show (match parseISO isoCodes (if cur = "" then "USD" else cur) with
      | none => some (BidValidationError.currencyParseError (if cur = "" then "USD" else cur))
      | some currencyUnit =>
        if (if requestCur.length = 0 then ["USD"] else requestCur).any
            (fun c => strUpper c == currencyUnit) then none
        else some (.currencyNotAllowed currencyUnit
          (if requestCur.length = 0 then ["USD"] else requestCur))) = none ↔ _
    cases hp : parseISO isoCodes (if cur = "" then "USD" else cur) with
    | none => simp [hp]
    | some u =>
      have hu : u = strUpper (if cur = "" then "USD" else cur) := parseISO_some _ _ _ hp
      rw [hall]
      by_cases ha : (if requestCur = [] then (["USD"] : List String) else requestCur).any
          (fun c => strUpper c == u) = true
      · have hex : ∃ a ∈ (if requestCur = [] then (["USD"] : List String) else requestCur),
            strUpper a = strUpper (if cur = "" then "USD" else cur) := by
          rw [List.any_eq_true] at ha
          obtain ⟨a, hamem, haeq⟩ := ha
          exact ⟨a, hamem, by simpa [hu] using haeq⟩
        simp [ha, hex]
      · have hnex : ¬∃ a ∈ (if requestCur = [] then (["USD"] : List String) else requestCur),
            strUpper a = strUpper (if cur = "" then "USD" else cur) := by
          rintro ⟨a, hamem, haeq⟩
          exact ha (List.any_eq_true.mpr ⟨a, hamem, by simp [haeq, hu]⟩)
        simp [ha, hnex]
  · intro cerr hc
    unfold validateBids
    rw [if_neg (fun h => hne (List.length_eq_zero.mp h)), hc]

/-- C7: with the currency check passing, the validator keeps a bid exactly
when the bid object is non-nil with non-empty id, impid and crid and a
strictly positive price; the kept bids are the valid ones in their original
order, one error is produced per excised bid, and the seat is preserved. -/
theorem validateBids_per_bid (isoCodes requestCur : List String) (seat : PBSSeatBid)
    (hcur : validateCurrency isoCodes requestCur seat.currency = none) :
    (validateBids isoCodes requestCur seat).1.bids =
      seat.bids.filter (fun b => (validateBid b).isNone) ∧
    (∀ b : POBid, validateBid b = none ↔ BidIsValid b) ∧
    (validateBids isoCodes requestCur seat).2.length +
        (validateBids isoCodes requestCur seat).1.bids.length = seat.bids.length ∧
    (validateBids isoCodes requestCur seat).1.currency = seat.currency := by
  by_cases hb : seat.bids.length = 0
  · have hnil : seat.bids = [] := List.length_eq_zero.mp hb
    unfold validateBids
    rw [if_pos hb]
    refine ⟨by rw [hnil]; rfl, validateBid_none_iff, by rw [hnil]; rfl, rfl⟩
  · unfold validateBids
    rw [if_neg hb, hcur]
    refine ⟨?_, validateBid_none_iff, ?_, rfl⟩
    · show (collectValidBids seat.bids).1 = _
      rw [collectValidBids_eq]
    · show (collectValidBids seat.bids).2.length + (collectValidBids seat.bids).1.length
          = seat.bids.length
      exact collectValidBids_length seat.bids

/-- Witness for C6 at a concrete instance: ISO table `["USD", "EUR"]`,
request allow-list `["eur"]`, and a seat with one bid declaring `USD`. -/
theorem validateCurrency_spec_witness :
    ({ bids := [{ bid := some { id := "b1", impid := "imp1", price := 1, crid := "cr1" } }],
       currency := "USD" } : PBSSeatBid).bids ≠ [] ∧
    (validateCurrency ["USD", "EUR"] ["eur"] ""
        = validateCurrency ["USD", "EUR"] ["eur"] "USD" ∧
      (∀ cur : String,
        validateCurrency ["USD", "EUR"] ["eur"] cur = none ↔
          (parseISO ["USD", "EUR"] (if cur = "" then "USD" else cur)).isSome ∧
          ∃ a ∈ (if (["eur"] : List String) = [] then ["USD"] else ["eur"]),
            strUpper a = strUpper (if cur = "" then "USD" else cur)) ∧
      (∀ cerr, validateCurrency ["USD", "EUR"] ["eur"] "USD" = some cerr →
        validateBids ["USD", "EUR"] ["eur"]
            { bids := [{ bid := some { id := "b1", impid := "imp1", price := 1,
                                       crid := "cr1" } }],
              currency := "USD" } =
          ({ bids := [], currency := "USD" }, [cerr]))) :=
  ⟨by simp,
    validateCurrency_spec ["USD", "EUR"] ["eur"]
      { bids := [{ bid := some { id := "b1", impid := "imp1", price := 1, crid := "cr1" } }],
        currency := "USD" } (by simp)⟩

/-- Witness for C7 at a concrete instance: a seat with one valid bid and one
bid with an empty id, empty declared currency, empty request allow-list. -/
theorem validateBids_per_bid_witness :
    validateCurrency ["USD"] [] "" = none ∧
    ((validateBids ["USD"] []
        { bids := [{ bid := some { id := "b1", impid := "i1", price := 1, crid := "c1" } },
                   { bid := some { id := "", impid := "i2", price := 1, crid := "c2" } }],
          currency := "" }).1.bids =
      ([{ bid := some { id := "b1", impid := "i1", price := 1, crid := "c1" } },
        { bid := some { id := "", impid := "i2", price := 1, crid := "c2" } }] : List POBid).filter
        (fun b => (validateBid b).isNone) ∧
    (∀ b : POBid, validateBid b = none ↔ BidIsValid b) ∧
    (validateBids ["USD"] []
        { bids := [{ bid := some { id := "b1", impid := "i1", price := 1, crid := "c1" } },
                   { bid := some { id := "", impid := "i2", price := 1, crid := "c2" } }],
          currency := "" }).2.length +
      (validateBids ["USD"] []
        { bids := [{ bid := some { id := "b1", impid := "i1", price := 1, crid := "c1" } },
                   { bid := some { id := "", impid := "i2", price := 1, crid := "c2" } }],
          currency := "" }).1.bids.length =
      ([{ bid := some { id := "b1", impid := "i1", price := 1, crid := "c1" } },
        { bid := some { id := "", impid := "i2", price := 1, crid := "c2" } }] : List POBid).length ∧
    (validateBids ["USD"] []
        { bids := [{ bid := some { id := "b1", impid := "i1", price := 1, crid := "c1" } },
                   { bid := some { id := "", impid := "i2", price := 1, crid := "c2" } }],
          currency := "" }).1.currency = "") :=
  ⟨by decide,
    validateBids_per_bid ["USD"] []
      { bids := [{ bid := some { id := "b1", impid := "i1", price := 1, crid := "c1" } },
                 { bid := some { id := "", impid := "i2", price := 1, crid := "c2" } }],
        currency := "" } (by decide)⟩

/-- C8: the composed cache's `Get` returns, for each requested id, the value
from the first layer in order that holds it and nothing for ids outside the
request, while `Update` and `Invalidate` reach every layer: after an update
every layer serves the updated values, and after an invalidation no layer
serves the invalidated ids. -/
theorem composedCache_spec (layers : List SMap) (ids : List String) (data : SMap) :
    (∀ k, mget (composedCacheGet layers ids) k =
        if k ∈ ids then firstHit layers k else none) ∧
    (∀ c2 ∈ composedCacheUpdate layers data, ∀ k v,
        mget data k = some v → mget c2 k = some v) ∧
    (∀ c2 ∈ composedCacheInvalidate layers ids, ∀ k ∈ ids, mget c2 k = none) := by
  refine ⟨fun k => mget_composedCacheGet layers ids k, ?_, ?_⟩
  · intro c2 hc2 k v hv
    obtain ⟨c, -, rfl⟩ := List.mem_map.mp hc2
    exact mget_cacheUpdate_of_some c data k v hv
  · intro c2 hc2 k hk
    obtain ⟨c, -, rfl⟩ := List.mem_map.mp hc2
    exact mget_cacheInvalidate_mem c ids k hk

/-- C9: a 200 response whose body unmarshals to a BidResponse with an empty
SeatBid list — such as the body `{}` — drives `BrightrollAdapter.MakeBids`
into the unchecked read `bidResp.SeatBid[0]`, the out-of-range branch of the
total embedding, instead of any BadServerResponse return. -/
theorem brightrollMakeBids_empty_seatbid :
    brightrollMakeBids 200 (some { seatBid := [] }) [] = .indexOutOfRange :=
  rfl

/-- C10: `eagerFetcher.FetchRequests` returns the entire stored-request map
unchanged — so the result may hold ids never requested and the stored map is
never mutated — together with exactly one no-config error per requested id
absent from the map, in request order. -/
theorem eagerFetchRequests_spec (storedReqs : SMap) (ids : List String) :
    (eagerFetchRequests storedReqs ids).1 = storedReqs ∧
    (eagerFetchRequests storedReqs ids).2 =
      (ids.filter (fun id => (mget storedReqs id).isNone)).map FetchErr.noConfigFound :=
  ⟨rfl, eagerFetchErrors_eq storedReqs ids⟩

end PrebidServer
